import Mathlib

/-!
Verification of the `Homework_7.py` address-book program.

The Python source is shallowly embedded below.  Conventions:

* Python strings are Lean `String`s; text algorithms work on `List Char`.
* Python `str.lower` is modelled on the ASCII range (`lowChar`); the
  program's validated values (phone digits, `'+'`, dates) lie in ASCII.
* Python `re.match(p, s)` anchors at the start of `s`, `$` matches at the
  end of the string or just before one trailing newline, and an
  unescaped `.` matches any character except a newline.  The three
  patterns in the source (`^\+?\d{10}$|^\d{10}$` for phones,
  `^\d{4}-\d{2}-\d{2}$` for the birthday setter, `^\d{2}.\d{2}.\d{4}$`
  in `set_birthday`) are embedded with exactly these semantics.
  Python's `\d` is Unicode-aware; it is modelled on ASCII digits here.
* `None` is `Option.none`; a raised exception is `Except.error` with a
  `PyErr` payload.
-/

def isDigitChar (c : Char) : Bool :=
  decide ('0' ≤ c) && decide (c ≤ '9')

/-- ASCII lower-casing, the fragment of Python's `str.lower` relevant to
the validated values of the program. -/
def lowChar : Char → Char
  | 'A' => 'a'
  | 'B' => 'b'
  | 'C' => 'c'
  | 'D' => 'd'
  | 'E' => 'e'
  | 'F' => 'f'
  | 'G' => 'g'
  | 'H' => 'h'
  | 'I' => 'i'
  | 'J' => 'j'
  | 'K' => 'k'
  | 'L' => 'l'
  | 'M' => 'm'
  | 'N' => 'n'
  | 'O' => 'o'
  | 'P' => 'p'
  | 'Q' => 'q'
  | 'R' => 'r'
  | 'S' => 's'
  | 'T' => 't'
  | 'U' => 'u'
  | 'V' => 'v'
  | 'W' => 'w'
  | 'X' => 'x'
  | 'Y' => 'y'
  | 'Z' => 'z'
  | c => c

def lowList (l : List Char) : List Char := l.map lowChar

/-- Does `p` occur at the front of `t`? -/
def hasPref : List Char → List Char → Bool
  | [], _ => true
  | _ :: _, [] => false
  | a :: as, b :: bs => a == b && hasPref as bs

/-- Python's `p in t` on strings: is `p` a contiguous substring of `t`? -/
def containsSub : List Char → List Char → Bool
  | p, [] => hasPref p []
  | p, c :: cs => hasPref p (c :: cs) || containsSub p cs

/-- `digitsThenOptNL n l`: `l` is exactly `n` ASCII digits, optionally
followed by one final newline (the `$`-anchor semantics of `re.match`). -/
def digitsThenOptNL : Nat → List Char → Bool
  | 0, t => t == ([] : List Char) || t == ['\n']
  | _ + 1, [] => false
  | n + 1, c :: cs => isDigitChar c && digitsThenOptNL n cs

/-- Character-list form of the phone pattern `^\+?\d{10}$|^\d{10}$`. -/
def phoneChars : List Char → Bool
  | [] => false
  | c :: cs => if c = '+' then digitsThenOptNL 10 cs else digitsThenOptNL 10 (c :: cs)

/-- `Phone.is_valid_phone` from the source: `re.match(r"^\+?\d{10}$|^\d{10}$", phone)`. -/
def is_valid_phone (s : String) : Bool := phoneChars s.toList

/-- Errors raised by the program (Python `ValueError`). -/
inductive PyErr where
  | valueError (msg : String)
  deriving DecidableEq

/-- `Phone.__init__`: validates and stores the raw string, else raises `ValueError`. -/
def phoneInit (s : String) : Except PyErr String :=
  if is_valid_phone s then .ok s else .error (.valueError "Invalid phone number format")

/-- Matcher for the `BirthdayField.value` setter pattern `^\d{4}-\d{2}-\d{2}$`. -/
def matchYMDL : List Char → Bool
  | [a, b, c, d, e, f, g, h, i, j] =>
    isDigitChar a && isDigitChar b && isDigitChar c && isDigitChar d &&
    (e == '-') && isDigitChar f && isDigitChar g && (h == '-') &&
    isDigitChar i && isDigitChar j
  | [a, b, c, d, e, f, g, h, i, j, k] =>
    (k == '\n') && isDigitChar a && isDigitChar b && isDigitChar c && isDigitChar d &&
    (e == '-') && isDigitChar f && isDigitChar g && (h == '-') &&
    isDigitChar i && isDigitChar j
  | _ => false

def matchYMD (s : String) : Bool := matchYMDL s.toList

/-- Matcher for the `Record.set_birthday` pattern `^\d{2}.\d{2}.\d{4}$`.
The two dots are unescaped, so they match any character except a newline. -/
def matchDDdotAnyL : List Char → Bool
  | [a, b, c, d, e, f, g, h, i, j] =>
    isDigitChar a && isDigitChar b && !(c == '\n') && isDigitChar d && isDigitChar e &&
    !(f == '\n') && isDigitChar g && isDigitChar h && isDigitChar i && isDigitChar j
  | [a, b, c, d, e, f, g, h, i, j, k] =>
    (k == '\n') && isDigitChar a && isDigitChar b && !(c == '\n') && isDigitChar d &&
    isDigitChar e && !(f == '\n') && isDigitChar g && isDigitChar h && isDigitChar i &&
    isDigitChar j
  | _ => false

def matchDDdotAny (s : String) : Bool := matchDDdotAnyL s.toList

/-- One contact record; the four stored field values of the Python `Record`
(`Name`, `Phone`, `Field` for email, `BirthdayField`). -/
structure Record where
  name : String
  phone : String
  email : String
  birthday : Option String
  deriving DecidableEq

/-- `Record.__init__`: builds the four fields.  Only the phone is
validated; `BirthdayField.__init__` assigns `self._value` directly and
therefore bypasses the validating `value` setter, so any birthday value
is stored unchecked. -/
def recordInit (name phone email : String) (birthday : Option String) :
    Except PyErr Record :=
  if is_valid_phone phone then .ok ⟨name, phone, email, birthday⟩
  else .error (.valueError "Invalid phone number format")

/-- The `BirthdayField.value` setter: validates against `^\d{4}-\d{2}-\d{2}$`. -/
def birthdaySetValue (s : String) : Except PyErr String :=
  if matchYMD s then .ok s
  else .error (.valueError "Birthday must be in the format YYYY-MM-DD")

/-- `Record.set_birthday`: first checks `^\d{2}.\d{2}.\d{4}$`, then assigns
through the `BirthdayField.value` setter (which checks `^\d{4}-\d{2}-\d{2}$`). -/
def set_birthday (r : Record) (birthday : String) : Except PyErr Record :=
  if matchDDdotAny birthday then
    match birthdaySetValue birthday with
    | .ok v => .ok { r with birthday := some v }
    | .error e => .error e
  else .error (.valueError "Birthday must be in the format DD.MM.YYYY")

/-! ### Declarative shapes for the two validation patterns -/

/-- Declarative reading of the phone pattern: an optional leading `+`,
then exactly ten ASCII digits, then either nothing or one newline. -/
def phoneSpecA (s : String) : Prop :=
  ∃ ds t, (s.toList = ds ++ t ∨ s.toList = '+' :: (ds ++ t)) ∧
    ds.length = 10 ∧ (∀ c ∈ ds, isDigitChar c = true) ∧ (t = [] ∨ t = ['\n'])

/-- Declarative reading of the birthday-setter pattern: four digits,
a dash, two digits, a dash, two digits, then nothing or one newline. -/
def ymdSpecA (s : String) : Prop :=
  ∃ a b c t, s.toList = a ++ '-' :: (b ++ '-' :: (c ++ t)) ∧
    a.length = 4 ∧ b.length = 2 ∧ c.length = 2 ∧
    (∀ x ∈ a, isDigitChar x = true) ∧ (∀ x ∈ b, isDigitChar x = true) ∧
    (∀ x ∈ c, isDigitChar x = true) ∧ (t = [] ∨ t = ['\n'])

theorem digitsThenOptNL_iff (n : Nat) (l : List Char) :
    digitsThenOptNL n l = true ↔
      ∃ ds t, l = ds ++ t ∧ ds.length = n ∧ (∀ c ∈ ds, isDigitChar c = true) ∧
        (t = [] ∨ t = ['\n']) := by
  induction n generalizing l with
  | zero =>
    constructor
    · intro h
      refine ⟨[], l, by simp, rfl, by simp, ?_⟩
      simp only [digitsThenOptNL, Bool.or_eq_true, beq_iff_eq] at h
      exact h
    · rintro ⟨ds, t, rfl, hlen, _, ht⟩
      rw [List.length_eq_zero] at hlen
      subst hlen
      rcases ht with rfl | rfl <;> simp [digitsThenOptNL]
  | succ n ih =>
    constructor
    · intro h
      match l with
      | [] => simp [digitsThenOptNL] at h
      | c :: cs =>
        simp only [digitsThenOptNL, Bool.and_eq_true] at h
        obtain ⟨ds, t, rfl, hlen, hdig, ht⟩ := (ih cs).mp h.2
        exact ⟨c :: ds, t, rfl, by simp [hlen], by
          intro x hx
          rcases List.mem_cons.mp hx with rfl | hx
          · exact h.1
          · exact hdig x hx, ht⟩
    · rintro ⟨ds, t, hl, hlen, hdig, ht⟩
      match ds, hlen with
      | d :: ds, hlen =>
        subst hl
        simp only [List.cons_append, digitsThenOptNL, Bool.and_eq_true]
        refine ⟨hdig d (by simp), (ih _).mpr ⟨ds, t, rfl, by simpa using hlen, ?_, ht⟩⟩
        intro x hx
        exact hdig x (by simp [hx])

theorem phoneChars_iff (l : List Char) :
    phoneChars l = true ↔
      ∃ ds t, (l = ds ++ t ∨ l = '+' :: (ds ++ t)) ∧
        ds.length = 10 ∧ (∀ c ∈ ds, isDigitChar c = true) ∧ (t = [] ∨ t = ['\n']) := by
  cases l with
  | nil =>
    constructor
    · intro h; simp [phoneChars] at h
    · rintro ⟨ds, t, h | h, hlen, _, _⟩ <;>
        (exfalso; apply_fun List.length at h; simp [hlen] at h; all_goals omega)
  | cons c cs =>
    by_cases hc : c = '+'
    · subst hc
      have hred : phoneChars ('+' :: cs) = digitsThenOptNL 10 cs := by
        simp [phoneChars]
      rw [hred, digitsThenOptNL_iff]
      constructor
      · rintro ⟨ds, t, rfl, hlen, hdig, ht⟩
        exact ⟨ds, t, Or.inr rfl, hlen, hdig, ht⟩
      · rintro ⟨ds, t, h | h, hlen, hdig, ht⟩
        · exfalso
          match ds, hlen with
          | d :: ds, _ =>
            rw [List.cons_append] at h
            have hd : isDigitChar d = true := hdig d (by simp)
            have hdp : d = '+' := by
              have := h
              injection this with h1 _
              exact h1.symm
            subst hdp
            simp [isDigitChar] at hd
        · injection h with _ h2
          exact ⟨ds, t, h2, hlen, hdig, ht⟩
    · have hred : phoneChars (c :: cs) = digitsThenOptNL 10 (c :: cs) := by
        simp [phoneChars, hc]
      rw [hred, digitsThenOptNL_iff]
      constructor
      · rintro ⟨ds, t, hds, hlen, hdig, ht⟩
        exact ⟨ds, t, Or.inl hds, hlen, hdig, ht⟩
      · rintro ⟨ds, t, h | h, hlen, hdig, ht⟩
        · exact ⟨ds, t, h, hlen, hdig, ht⟩
        · exfalso
          injection h with h1 _
          exact hc h1

theorem is_valid_phone_iff (s : String) : is_valid_phone s = true ↔ phoneSpecA s := by
  unfold is_valid_phone phoneSpecA
  exact phoneChars_iff s.toList

/-- C5 (amended form): `Phone` construction succeeds exactly on an optional
leading `+`, ten ASCII digits, and an optional single trailing newline. -/
theorem c5_phone_construction (s : String) :
    (∃ v, phoneInit s = .ok v) ↔ phoneSpecA s := by
  rw [← is_valid_phone_iff]
  unfold phoneInit
  constructor
  · rintro ⟨v, hv⟩
    by_cases h : is_valid_phone s = true
    · exact h
    · rw [if_neg h] at hv; cases hv
  · intro h
    exact ⟨s, by rw [if_pos h]⟩

/-- C5 counterexample: the claim says Phone construction fails whenever any
character other than an optional leading `+` is a non-digit; but
`"1234567890\n"` contains the non-digit `'\n'` (not a leading `+`) and
`Phone` construction succeeds on it, because Python's `$` anchor also
matches just before a trailing newline. -/
theorem c5_cex :
    phoneInit "1234567890\n" = .ok "1234567890\n" ∧
      '\n' ∈ "1234567890\n".toList ∧ isDigitChar '\n' = false ∧ '\n' ≠ '+' := by
  refine ⟨rfl, by decide, by decide, by decide⟩

theorem c5_witness :
    (∃ v, phoneInit "+0123456789" = .ok v) ∧ ¬ phoneSpecA "123" := by
  constructor
  · exact (c5_phone_construction "+0123456789").mpr
      ⟨"0123456789".toList, [], Or.inr (by decide), by decide, by decide, Or.inl rfl⟩
  · intro h
    obtain ⟨v, hv⟩ := (c5_phone_construction "123").mpr h
    have he : phoneInit "123" = .error (.valueError "Invalid phone number format") := rfl
    rw [he] at hv
    cases hv

/-! ### C3: `set_birthday` -/

theorem digit_ne_dash (x : Char) (hx : isDigitChar x = true) : (x == '-') = false := by
  cases hb : x == '-'
  · rfl
  · exfalso
    have hxe : x = '-' := eq_of_beq hb
    subst hxe
    exact absurd hx (by decide)

/-- The two regexes used by `set_birthday` are incompatible: the first
demands a digit at position 4, the setter demands a dash there. -/
theorem ddmm_not_ymd (l : List Char) (h1 : matchDDdotAnyL l = true) :
    matchYMDL l = false := by
  unfold matchDDdotAnyL at h1
  split at h1
  · simp only [Bool.and_eq_true] at h1
    have he := h1.1.1.1.1.1.2
    simp only [matchYMDL]
    simp [digit_ne_dash _ he]
  · simp only [Bool.and_eq_true] at h1
    have he := h1.1.1.1.1.1.2
    simp only [matchYMDL]
    simp [digit_ne_dash _ he]
  · exact absurd h1 (by simp)

/-- C3 (code bug): `set_birthday` raises `ValueError` for every record and
every raw string.  Its own precheck `^\d{2}.\d{2}.\d{4}$` and the
`BirthdayField.value` setter pattern `^\d{4}-\d{2}-\d{2}$` cannot both be
satisfied, so the method can never replace the birthday field. -/
theorem c3_set_birthday_always_fails (r : Record) (raw : String) :
    ∃ msg, set_birthday r raw = .error (.valueError msg) := by
  by_cases hd : matchDDdotAny raw = true
  · have hym : matchYMD raw = false := ddmm_not_ymd raw.toList hd
    refine ⟨"Birthday must be in the format YYYY-MM-DD", ?_⟩
    unfold set_birthday
    rw [if_pos hd]
    have hbs : birthdaySetValue raw =
        .error (.valueError "Birthday must be in the format YYYY-MM-DD") := by
      unfold birthdaySetValue
      rw [if_neg (by simp [hym])]
    rw [hbs]
  · refine ⟨"Birthday must be in the format DD.MM.YYYY", ?_⟩
    unfold set_birthday
    rw [if_neg hd]

/-! ### C4: birthday-field construction and the setter shape -/

theorem matchYMDL_iff (l : List Char) :
    matchYMDL l = true ↔
      ∃ a b c t, l = a ++ '-' :: (b ++ '-' :: (c ++ t)) ∧
        a.length = 4 ∧ b.length = 2 ∧ c.length = 2 ∧
        (∀ x ∈ a, isDigitChar x = true) ∧ (∀ x ∈ b, isDigitChar x = true) ∧
        (∀ x ∈ c, isDigitChar x = true) ∧ (t = [] ∨ t = ['\n']) := by
  constructor
  · intro h
    unfold matchYMDL at h
    split at h
    · rename_i a b c d e f g hh i j
      simp only [Bool.and_eq_true, beq_iff_eq] at h
      obtain ⟨⟨⟨⟨⟨⟨⟨⟨⟨h1, h2⟩, h3⟩, h4⟩, h5⟩, h6⟩, h7⟩, h8⟩, h9⟩, h10⟩ := h
      subst h5; subst h8
      refine ⟨[a, b, c, d], [f, g], [i, j], [], by simp, rfl, rfl, rfl, ?_, ?_, ?_, Or.inl rfl⟩
      · intro x hx
        rcases List.mem_cons.mp hx with rfl | hx
        · exact h1
        rcases List.mem_cons.mp hx with rfl | hx
        · exact h2
        rcases List.mem_cons.mp hx with rfl | hx
        · exact h3
        rcases List.mem_cons.mp hx with rfl | hx
        · exact h4
        simp at hx
      · intro x hx
        rcases List.mem_cons.mp hx with rfl | hx
        · exact h6
        rcases List.mem_cons.mp hx with rfl | hx
        · exact h7
        simp at hx
      · intro x hx
        rcases List.mem_cons.mp hx with rfl | hx
        · exact h9
        rcases List.mem_cons.mp hx with rfl | hx
        · exact h10
        simp at hx
    · rename_i a b c d e f g hh i j k
      simp only [Bool.and_eq_true, beq_iff_eq] at h
      obtain ⟨⟨⟨⟨⟨⟨⟨⟨⟨⟨hk, h1⟩, h2⟩, h3⟩, h4⟩, h5⟩, h6⟩, h7⟩, h8⟩, h9⟩, h10⟩ := h
      subst h5; subst h8; subst hk
      refine ⟨[a, b, c, d], [f, g], [i, j], ['\n'], by simp, rfl, rfl, rfl, ?_, ?_, ?_, Or.inr rfl⟩
      · intro x hx
        rcases List.mem_cons.mp hx with rfl | hx
        · exact h1
        rcases List.mem_cons.mp hx with rfl | hx
        · exact h2
        rcases List.mem_cons.mp hx with rfl | hx
        · exact h3
        rcases List.mem_cons.mp hx with rfl | hx
        · exact h4
        simp at hx
      · intro x hx
        rcases List.mem_cons.mp hx with rfl | hx
        · exact h6
        rcases List.mem_cons.mp hx with rfl | hx
        · exact h7
        simp at hx
      · intro x hx
        rcases List.mem_cons.mp hx with rfl | hx
        · exact h9
        rcases List.mem_cons.mp hx with rfl | hx
        · exact h10
        simp at hx
    · exact absurd h (by simp)
  · rintro ⟨a, b, c, t, rfl, ha, hb, hc, da, db, dc, ht⟩
    obtain ⟨a1, arest, rfl⟩ : ∃ x xs, a = x :: xs := by
      cases a with
      | nil => simp at ha
      | cons x xs => exact ⟨x, xs, rfl⟩
    obtain ⟨a2, a3, a4, rfl⟩ := List.length_eq_three.mp (by simpa using ha)
    obtain ⟨b1, b2, rfl⟩ := List.length_eq_two.mp hb
    obtain ⟨c1, c2, rfl⟩ := List.length_eq_two.mp hc
    have d1 : isDigitChar a1 = true := da a1 (by simp)
    have d2 : isDigitChar a2 = true := da a2 (by simp)
    have d3 : isDigitChar a3 = true := da a3 (by simp)
    have d4 : isDigitChar a4 = true := da a4 (by simp)
    have d5 : isDigitChar b1 = true := db b1 (by simp)
    have d6 : isDigitChar b2 = true := db b2 (by simp)
    have d7 : isDigitChar c1 = true := dc c1 (by simp)
    have d8 : isDigitChar c2 = true := dc c2 (by simp)
    rcases ht with rfl | rfl
    · simp only [List.cons_append, List.nil_append, List.append_nil, matchYMDL]
      simp [d1, d2, d3, d4, d5, d6, d7, d8]
    · simp only [List.cons_append, List.nil_append, matchYMDL]
      simp [d1, d2, d3, d4, d5, d6, d7, d8]

/-- C4 (amended): birthday construction never validates — `Record`
construction (hence `BirthdayField.__init__`) stores any birthday value
unchecked, because `Field.__init__` assigns `self._value` directly.  Only
assignment through the `value` setter validates, and it checks just the
shape `\d{4}-\d{2}-\d{2}` (with Python's trailing-newline tolerance for
`$`), not calendar validity: `"9999-99-99"` is accepted. -/
theorem c4_birthday_validation (name phone email : String) (b : Option String)
    (hp : is_valid_phone phone = true) :
    recordInit name phone email b = .ok ⟨name, phone, email, b⟩ ∧
      (∀ s, (∃ v, birthdaySetValue s = .ok v) ↔ ymdSpecA s) ∧
      birthdaySetValue "9999-99-99" = .ok "9999-99-99" := by
  refine ⟨by unfold recordInit; rw [if_pos hp], ?_, rfl⟩
  intro s
  unfold birthdaySetValue ymdSpecA
  constructor
  · rintro ⟨v, hv⟩
    by_cases h : matchYMD s = true
    · exact (matchYMDL_iff s.toList).mp h
    · rw [if_neg h] at hv; cases hv
  · intro h
    have hm : matchYMD s = true := (matchYMDL_iff s.toList).mpr h
    exact ⟨s, by rw [if_pos hm]⟩

/-- C4 counterexample: the claim says birthday-field construction fails
with InvalidFormat on malformed strings; but `Record` construction with
the malformed birthday `"not-a-date"` succeeds and stores it verbatim
(construction bypasses the validating setter). -/
theorem c4_cex :
    recordInit "Anna" "1234567890" "a@x.com" (some "not-a-date") =
      .ok ⟨"Anna", "1234567890", "a@x.com", some "not-a-date"⟩ ∧
      matchYMD "not-a-date" = false := by
  exact ⟨rfl, by decide⟩

theorem c4_witness :
    recordInit "Anna" "1234567890" "a@x.com" (some "anything") =
      .ok ⟨"Anna", "1234567890", "a@x.com", some "anything"⟩ ∧
      birthdaySetValue "9999-99-99" = .ok "9999-99-99" := by
  have h := c4_birthday_validation "Anna" "1234567890" "a@x.com" (some "anything") (by decide)
  exact ⟨h.1, h.2.2⟩

/-! ### The address book and its persistence -/

/-- `AddressBook.add_record`: `self.data[record.name.value] = record`.
The store is a Python dict, modelled as a list of records with pairwise
distinct names kept in insertion order; assignment to an existing key
replaces the value in place, a new key is appended. -/
def add_record : List Record → Record → List Record
  | [], r => [r]
  | x :: xs, r => if x.name = r.name then r :: xs else x :: add_record xs r

/-- `AddressBook.find`: dict lookup by name, `None` when absent. -/
def findName : List Record → String → Option Record
  | [], _ => none
  | x :: xs, n => if x.name = n then some x else findName xs n

/-- `AddressBook.delete`: removes the entry and reports whether it was present. -/
def delete : List Record → String → List Record × Bool
  | [], _ => ([], false)
  | x :: xs, n =>
    if x.name = n then (xs, true)
    else ((delete xs n).1.cons x, (delete xs n).2)

/-- One element of the `records` array written by `save_to_json` /
read by `load_from_json` (JSON object with keys name/phone/email/birthday;
a JSON `null` birthday is `none`). -/
structure RecordData where
  name : String
  phone : String
  email : String
  birthday : Option String
  deriving DecidableEq

/-- The document `save_to_json` serializes: the `records` array in store
iteration (insertion) order. -/
def jsonDocOf (book : List Record) : List RecordData :=
  book.map (fun r => ⟨r.name, r.phone, r.email, r.birthday⟩)

/-- What `open`/`json.load` can yield for a JSON source: the file is
missing (`FileNotFoundError`), its content is not decodable JSON
(`json.JSONDecodeError`), or it decodes to a document with a `records`
array (`data.get("records", [])`). -/
inductive JsonFile where
  | missing
  | undecodable
  | doc (records : List RecordData)
  deriving DecidableEq

/-- The record loop of `load_from_json`: records are constructed and added
one at a time; a `ValueError` from `Record.__init__` (invalid phone) is
not caught, so it aborts the loop, leaving earlier additions in place. -/
def loadRecords : List Record → List RecordData → List Record × Option PyErr
  | book, [] => (book, none)
  | book, rd :: rest =>
    match recordInit rd.name rd.phone rd.email rd.birthday with
    | .ok r => loadRecords (add_record book r) rest
    | .error e => (book, some e)

/-- `AddressBook.load_from_json`: `FileNotFoundError` and `JSONDecodeError`
are caught (`pass`); the result is the new store plus the exception, if
any, that propagates to the caller. -/
def load_from_json (book : List Record) : JsonFile → List Record × Option PyErr
  | .missing => (book, none)
  | .undecodable => (book, none)
  | .doc rs => loadRecords book rs

/-- What `open`/`pickle.load` can yield: missing file (`FileNotFoundError`),
content whose unpickling raises `pickle.PickleError`, or a stored snapshot
of the whole `data` dict. -/
inductive PickleFile where
  | missing
  | undecodable
  | snapshot (data : List Record)
  deriving DecidableEq

/-- `AddressBook.load_from_pickle`: on success assigns `self.data` wholesale;
`FileNotFoundError` and `pickle.PickleError` are caught (`pass`). -/
def load_from_pickle (book : List Record) : PickleFile → List Record × Option PyErr
  | .missing => (book, none)
  | .undecodable => (book, none)
  | .snapshot d => (d, none)

/-- Outcome of the underlying file I/O during a save: everything works,
the `open` call itself fails, or a failure happens while writing (after
`open(filename, "w"/"wb")` has already truncated/created the target). -/
inductive IOCond where
  | ok
  | openFails
  | writeFails
  deriving DecidableEq

/-- State of the save target afterwards. -/
inductive TargetState where
  | unchanged
  | halfWritten
  | fullJson (doc : List RecordData)
  | fullPickle (data : List Record)
  deriving DecidableEq

/-- Result of `save_to_json`: the method body has no `return` statement, so
it returns Python `None` on success, and it has no exception handler, so
any I/O error propagates (`raised`). -/
inductive JsonSaveResult where
  | raised (t : TargetState)
  | returnedNone (t : TargetState)
  deriving DecidableEq

/-- `AddressBook.save_to_json`: direct `open(filename, "w")` then
`json.dump`; no temp-file-and-rename, no try/except, no return value. -/
def save_to_json (book : List Record) : IOCond → JsonSaveResult
  | .ok => .returnedNone (.fullJson (jsonDocOf book))
  | .openFails => .raised .unchanged
  | .writeFails => .raised .halfWritten

/-- Result of `save_to_pickle`: always returns a boolean (its try/except
catches `IOError`/`PickleError` and returns `False`). -/
inductive PickleSaveResult where
  | returnedBool (b : Bool) (t : TargetState)
  deriving DecidableEq

/-- `AddressBook.save_to_pickle`: direct `open(filename, "wb")` then
`pickle.dump` inside try/except returning `True`/`False`. -/
def save_to_pickle (book : List Record) : IOCond → PickleSaveResult
  | .ok => .returnedBool true (.fullPickle book)
  | .openFails => .returnedBool false .unchanged
  | .writeFails => .returnedBool false .halfWritten

/-- The dict invariant of `AddressBook.data`: keys (names) are distinct. -/
def distinctNames (book : List Record) : Prop :=
  book.Pairwise (fun a b => a.name ≠ b.name)

/-! ### Frame lemmas for the store -/

theorem findName_nil (n : String) : findName [] n = none := rfl

theorem findName_cons (x : Record) (xs : List Record) (n : String) :
    findName (x :: xs) n = if x.name = n then some x else findName xs n := rfl

theorem add_record_nil (r : Record) : add_record [] r = [r] := rfl

theorem add_record_cons (x : Record) (xs : List Record) (r : Record) :
    add_record (x :: xs) r =
      if x.name = r.name then r :: xs else x :: add_record xs r := rfl

theorem delete_cons (x : Record) (xs : List Record) (n : String) :
    delete (x :: xs) n =
      if x.name = n then (xs, true)
      else ((delete xs n).1.cons x, (delete xs n).2) := rfl

theorem findName_add_of_ne (book : List Record) (r : Record) (n : String)
    (h : n ≠ r.name) : findName (add_record book r) n = findName book n := by
  induction book with
  | nil =>
    rw [add_record_nil, findName_cons, if_neg (fun hh => h hh.symm)]
  | cons x xs ih =>
    rw [add_record_cons]
    by_cases hx : x.name = r.name
    · rw [if_pos hx, findName_cons, findName_cons,
        if_neg (fun hh => h hh.symm),
        if_neg (fun hh : x.name = n => h (hx ▸ hh).symm)]
    · rw [if_neg hx, findName_cons, findName_cons]
      by_cases hxn : x.name = n
      · rw [if_pos hxn, if_pos hxn]
      · rw [if_neg hxn, if_neg hxn]
        exact ih

theorem findName_delete_of_ne (book : List Record) (m n : String)
    (h : n ≠ m) : findName (delete book m).1 n = findName book n := by
  induction book with
  | nil => rfl
  | cons x xs ih =>
    rw [delete_cons]
    by_cases hx : x.name = m
    · rw [if_pos hx]
      show findName xs n = findName (x :: xs) n
      rw [findName_cons, if_neg (fun hh : x.name = n => h (hh ▸ hx ▸ rfl : n = m))]
    · rw [if_neg hx]
      show findName (x :: (delete xs m).1) n = findName (x :: xs) n
      rw [findName_cons, findName_cons]
      by_cases hxn : x.name = n
      · rw [if_pos hxn, if_pos hxn]
      · rw [if_neg hxn, if_neg hxn]
        exact ih

theorem loadRecords_frame (rs : List RecordData) (book : List Record) (n : String)
    (h : ∀ rd ∈ rs, rd.name ≠ n) :
    findName (loadRecords book rs).1 n = findName book n := by
  induction rs generalizing book with
  | nil => rfl
  | cons rd rest ih =>
    by_cases hv : is_valid_phone rd.phone = true
    · have hr : recordInit rd.name rd.phone rd.email rd.birthday =
          .ok ⟨rd.name, rd.phone, rd.email, rd.birthday⟩ := by
        unfold recordInit
        rw [if_pos hv]
      simp only [loadRecords, hr]
      rw [ih _ (fun rd' hm => h rd' (List.mem_cons_of_mem _ hm))]
      exact findName_add_of_ne book _ n (fun hh => h rd (List.mem_cons_self _ _) hh.symm)
    · have hr : recordInit rd.name rd.phone rd.email rd.birthday =
          .error (.valueError "Invalid phone number format") := by
        unfold recordInit
        rw [if_neg hv]
      simp only [loadRecords, hr]

/-! ### Round-trip lemmas -/

theorem findName_self (book : List Record) (hd : distinctNames book) (r : Record)
    (hr : r ∈ book) : findName book r.name = some r := by
  induction book with
  | nil => cases hr
  | cons x xs ih =>
    rw [distinctNames, List.pairwise_cons] at hd
    rcases List.mem_cons.mp hr with rfl | hm
    · rw [findName_cons, if_pos rfl]
    · rw [findName_cons, if_neg (hd.1 r hm)]
      exact ih hd.2 hm

theorem add_record_found (book : List Record) (r : Record)
    (h : findName book r.name = some r) : add_record book r = book := by
  induction book with
  | nil => simp [findName] at h
  | cons x xs ih =>
    rw [findName_cons] at h
    by_cases hx : x.name = r.name
    · rw [if_pos hx] at h
      injection h with h
      subst h
      rw [add_record_cons, if_pos hx]
    · rw [if_neg hx] at h
      rw [add_record_cons, if_neg hx, ih h]

theorem findName_none_append (book : List Record) (x : Record) (n : String)
    (h1 : findName book n = none) (h2 : x.name ≠ n) :
    findName (book ++ [x]) n = none := by
  induction book with
  | nil =>
    rw [List.nil_append, findName_cons, if_neg h2]
    rfl
  | cons y ys ih =>
    rw [List.cons_append]
    rw [findName_cons] at h1 ⊢
    by_cases hy : y.name = n
    · rw [if_pos hy] at h1
      cases h1
    · rw [if_neg hy] at h1 ⊢
      exact ih h1

theorem add_record_append (book : List Record) (r : Record)
    (h : findName book r.name = none) : add_record book r = book ++ [r] := by
  induction book with
  | nil => rfl
  | cons x xs ih =>
    rw [findName_cons] at h
    by_cases hx : x.name = r.name
    · rw [if_pos hx] at h
      cases h
    · rw [if_neg hx] at h
      rw [add_record_cons, if_neg hx, ih h]
      rfl

theorem loadRecords_saved (l book : List Record)
    (hv : ∀ r ∈ l, is_valid_phone r.phone = true)
    (hf : ∀ r ∈ l, findName book r.name = some r) :
    loadRecords book (jsonDocOf l) = (book, none) := by
  induction l with
  | nil => rfl
  | cons r rest ih =>
    have hvr := hv r (List.mem_cons_self _ _)
    have hr : recordInit r.name r.phone r.email r.birthday = .ok r := by
      unfold recordInit
      rw [if_pos hvr]
    simp only [jsonDocOf, List.map_cons]
    simp only [loadRecords, hr]
    rw [add_record_found book r (hf r (List.mem_cons_self _ _))]
    exact ih (fun x hx => hv x (List.mem_cons_of_mem _ hx))
      (fun x hx => hf x (List.mem_cons_of_mem _ hx))

theorem loadRecords_fresh (l : List Record)
    (hv : ∀ r ∈ l, is_valid_phone r.phone = true)
    (hdl : distinctNames l) :
    ∀ acc : List Record, (∀ r ∈ l, findName acc r.name = none) →
      loadRecords acc (jsonDocOf l) = (acc ++ l, none) := by
  induction l with
  | nil => intro acc _; simp [jsonDocOf, loadRecords]
  | cons r rest ih =>
    intro acc hacc
    rw [distinctNames, List.pairwise_cons] at hdl
    have hvr := hv r (List.mem_cons_self _ _)
    have hr : recordInit r.name r.phone r.email r.birthday = .ok r := by
      unfold recordInit
      rw [if_pos hvr]
    simp only [jsonDocOf, List.map_cons]
    simp only [loadRecords, hr]
    rw [add_record_append acc r (hacc r (List.mem_cons_self _ _))]
    have hrec := ih (fun x hx => hv x (List.mem_cons_of_mem _ hx)) hdl.2 (acc ++ [r])
      (fun x hx => findName_none_append acc r x.name
        (hacc x (List.mem_cons_of_mem _ hx)) (hdl.1 x hx))
    rw [show jsonDocOf rest = rest.map (fun r => (⟨r.name, r.phone, r.email, r.birthday⟩ : RecordData)) from rfl] at hrec
    rw [hrec]
    simp

/-- C1: for a store whose records are all independently valid (the phone
passes `is_valid_phone`; the birthday is absent or passes the canonical
`YYYY-MM-DD` shape), saving with `save_to_json` writes the document
`jsonDocOf book`, and loading that document back with `load_from_json`
— whether into the very same store or into an empty one — yields exactly
the same records, same field values, in the same order, for any record
count N ≥ 0. -/
theorem c1_save_load_roundtrip (book : List Record)
    (hdist : distinctNames book)
    (hphone : ∀ r ∈ book, is_valid_phone r.phone = true)
    (_hbday : ∀ r ∈ book, r.birthday = none ∨ ∃ s, r.birthday = some s ∧ matchYMD s = true) :
    save_to_json book IOCond.ok =
        JsonSaveResult.returnedNone (TargetState.fullJson (jsonDocOf book)) ∧
      load_from_json book (JsonFile.doc (jsonDocOf book)) = (book, none) ∧
      load_from_json [] (JsonFile.doc (jsonDocOf book)) = (book, none) := by
  refine ⟨rfl, ?_, ?_⟩
  · exact loadRecords_saved book book hphone (fun r hr => findName_self book hdist r hr)
  · have := loadRecords_fresh book hphone hdist [] (fun r _ => rfl)
    simpa using this

theorem c1_witness :
    load_from_json
        [⟨"Anna", "1234567890", "anna@x.com", some "1990-01-02"⟩,
         ⟨"Bob", "+0987654321", "bob@x.com", none⟩]
        (JsonFile.doc (jsonDocOf
          [⟨"Anna", "1234567890", "anna@x.com", some "1990-01-02"⟩,
           ⟨"Bob", "+0987654321", "bob@x.com", none⟩])) =
      ([⟨"Anna", "1234567890", "anna@x.com", some "1990-01-02"⟩,
        ⟨"Bob", "+0987654321", "bob@x.com", none⟩], none) := by
  refine (c1_save_load_roundtrip _ ?_ ?_ ?_).2.1
  · rw [distinctNames]
    refine List.Pairwise.cons ?_ (List.pairwise_singleton _ _)
    intro b hb
    rcases List.mem_singleton.mp hb with rfl
    decide
  · intro r hr
    rcases List.mem_cons.mp hr with rfl | hr
    · decide
    rcases List.mem_singleton.mp hr with rfl
    decide
  · intro r hr
    rcases List.mem_cons.mp hr with rfl | hr
    · exact Or.inr ⟨"1990-01-02", rfl, by decide⟩
    rcases List.mem_singleton.mp hr with rfl
    exact Or.inl rfl

/-- C2 (amended): both load operations are soft no-ops — no exception, the
store exactly in its prior state — when the file is missing or its content
is undecodable (raises `JSONDecodeError` respectively `PickleError`).
Decodable JSON whose records fail phone validation is the exception: see
the counterexample. -/
theorem c2_load_soft_noop (book : List Record) :
    load_from_json book JsonFile.missing = (book, none) ∧
      load_from_json book JsonFile.undecodable = (book, none) ∧
      load_from_pickle book PickleFile.missing = (book, none) ∧
      load_from_pickle book PickleFile.undecodable = (book, none) :=
  ⟨rfl, rfl, rfl, rfl⟩

/-- C2 counterexample: a decodable JSON document whose second record has an
invalid phone makes `load_from_json` raise `ValueError` to the caller (the
except clause only catches `FileNotFoundError`/`JSONDecodeError`) after the
first record has already been added: starting from the empty store, the
result is a partially populated store together with a propagating
exception — the claim said "never raise, never partially populate". -/
theorem c2_cex :
    load_from_json []
        (JsonFile.doc
          [⟨"Anna", "1234567890", "anna@x.com", none⟩,
           ⟨"Bob", "123", "bob@x.com", none⟩]) =
      ([⟨"Anna", "1234567890", "anna@x.com", none⟩],
        some (PyErr.valueError "Invalid phone number format")) := rfl

/-- C9 counterexample: `load_from_json` never clears `self.data`; it adds
the snapshot's records on top.  Loading a snapshot containing only "Anna"
into a store holding only "Bob" yields a store still containing "Bob" — a
record that was present only before the load — contradicting the claim
that a successful load fully replaces the in-memory state. -/
theorem c9_cex :
    load_from_json [⟨"Bob", "0987654321", "bob@x.com", none⟩]
        (JsonFile.doc [⟨"Anna", "1234567890", "anna@x.com", none⟩]) =
      ([⟨"Bob", "0987654321", "bob@x.com", none⟩,
        ⟨"Anna", "1234567890", "anna@x.com", none⟩], none) := rfl

/-- C9 (amended): only `load_from_pickle` fully replaces the in-memory
state (`self.data = pickle.load(file)`); `load_from_json` merges, upserting
the snapshot's records by name, so any entry whose name is not among the
snapshot's record names is left exactly as it was. -/
theorem c9_load_replacement :
    (∀ book d : List Record, load_from_pickle book (PickleFile.snapshot d) = (d, none)) ∧
      (∀ (book : List Record) (rs : List RecordData) (n : String),
        (∀ rd ∈ rs, rd.name ≠ n) →
          findName (load_from_json book (JsonFile.doc rs)).1 n = findName book n) := by
  refine ⟨fun book d => rfl, ?_⟩
  intro book rs n h
  exact loadRecords_frame rs book n h

theorem c9_witness :
    load_from_pickle [⟨"Bob", "0987654321", "bob@x.com", none⟩]
        (PickleFile.snapshot []) = ([], none) ∧
      findName (load_from_json [⟨"Bob", "0987654321", "bob@x.com", none⟩]
          (JsonFile.doc [⟨"Anna", "1234567890", "anna@x.com", none⟩])).1 "Bob" =
        findName [⟨"Bob", "0987654321", "bob@x.com", none⟩] "Bob" := by
  refine ⟨c9_load_replacement.1 _ _, c9_load_replacement.2 _ _ "Bob" ?_⟩
  intro rd hrd
  rcases List.mem_singleton.mp hrd with rfl
  decide

/-- C10: `add_record r` does not disturb the entry under any name other
than `r.name`, and `delete m` does not disturb the entry under any name
other than `m` (dict update/removal touches only its own key). -/
theorem c10_frame_effects (book : List Record) (r : Record) (m n : String)
    (h1 : n ≠ r.name) (h2 : n ≠ m) :
    findName (add_record book r) n = findName book n ∧
      findName (delete book m).1 n = findName book n :=
  ⟨findName_add_of_ne book r n h1, findName_delete_of_ne book m n h2⟩

theorem c10_witness :
    findName (add_record [⟨"Bob", "0987654321", "bob@x.com", none⟩]
        ⟨"Anna", "1234567890", "anna@x.com", none⟩) "Bob" =
      findName [⟨"Bob", "0987654321", "bob@x.com", none⟩] "Bob" ∧
      findName (delete [⟨"Bob", "0987654321", "bob@x.com", none⟩] "Anna").1 "Bob" =
        findName [⟨"Bob", "0987654321", "bob@x.com", none⟩] "Bob" :=
  c10_frame_effects [⟨"Bob", "0987654321", "bob@x.com", none⟩]
    ⟨"Anna", "1234567890", "anna@x.com", none⟩ "Anna" "Bob"
    (by decide) (by decide)

/-- C8 (code bug): `save_to_json` does not surface a write failure as a
boolean/status result — it has no `return` statement (the interactive menu
nevertheless tests its return value) and no exception handler, so an I/O
error during writing propagates; and because both save methods write via a
plain truncating `open` with no temp-then-rename, a failure during writing
leaves the target half-written rather than unchanged-or-fully-written.
`save_to_pickle` does return a boolean, but its target is equally left
half-written on a write failure. -/
theorem c8_save_failure_behaviour (book : List Record) :
    save_to_json book IOCond.writeFails = JsonSaveResult.raised TargetState.halfWritten ∧
      save_to_json book IOCond.ok =
        JsonSaveResult.returnedNone (TargetState.fullJson (jsonDocOf book)) ∧
      save_to_pickle book IOCond.writeFails =
        PickleSaveResult.returnedBool false TargetState.halfWritten :=
  ⟨rfl, rfl, rfl⟩

/-! ### Search (C7) -/

/-- `AddressBook.search`: lowers the query once, then keeps — in store
iteration (insertion) order — the records whose lowered name contains it,
or whose raw phone string contains it, or whose lowered email contains it.
An empty result list is an ordinary outcome. -/
def search (book : List Record) (q : String) : List Record :=
  book.filter (fun r =>
    containsSub (lowList q.toList) (lowList r.name.toList) ||
    containsSub (lowList q.toList) r.phone.toList ||
    containsSub (lowList q.toList) (lowList r.email.toList))

/-- Claim-side matcher: the query is a case-insensitive substring of the
name or of the email, or a (plain) substring of the raw phone string. -/
def searchSpec (q : String) (r : Record) : Bool :=
  containsSub (lowList q.toList) (lowList r.name.toList) ||
  containsSub (lowList q.toList) (lowList r.email.toList) ||
  containsSub q.toList r.phone.toList

theorem hasPref_mem (p : List Char) : ∀ (t : List Char), hasPref p t = true →
    ∀ c ∈ p, c ∈ t := by
  induction p with
  | nil =>
    intro t _ c hc
    cases hc
  | cons a as ih =>
    intro t h c hc
    match t with
    | [] => simp [hasPref] at h
    | b :: bs =>
      simp only [hasPref, Bool.and_eq_true, beq_iff_eq] at h
      rcases List.mem_cons.mp hc with rfl | hc
      · rw [h.1]
        exact List.mem_cons_self _ _
      · exact List.mem_cons_of_mem _ (ih bs h.2 c hc)

theorem containsSub_mem (p t : List Char) (h : containsSub p t = true) :
    ∀ c ∈ p, c ∈ t := by
  induction t with
  | nil =>
    intro c hc
    match p, hc with
    | a :: as, _ => simp [containsSub, hasPref] at h
  | cons b bs ih =>
    simp only [containsSub, Bool.or_eq_true] at h
    intro c hc
    rcases h with h | h
    · exact hasPref_mem p (b :: bs) h c hc
    · exact List.mem_cons_of_mem _ (ih h c hc)

/-- Every character either is fixed by `lowChar`, or it is an uppercase
letter: then neither it nor its image is a digit, a plus, or a newline. -/
theorem lowChar_eq_or (c : Char) :
    lowChar c = c ∨
      (isDigitChar c = false ∧ c ≠ '+' ∧ c ≠ '\n' ∧
        isDigitChar (lowChar c) = false ∧ lowChar c ≠ '+' ∧ lowChar c ≠ '\n') := by
  unfold lowChar
  split <;> first | exact Or.inl rfl | exact Or.inr (by decide)

theorem digitsThenOptNL_chars (n : Nat) : ∀ (l : List Char),
    digitsThenOptNL n l = true → ∀ c ∈ l, isDigitChar c = true ∨ c = '\n' := by
  induction n with
  | zero =>
    intro l h
    simp only [digitsThenOptNL, Bool.or_eq_true, beq_iff_eq] at h
    rcases h with rfl | rfl
    · intro c hc
      cases hc
    · intro c hc
      rcases List.mem_singleton.mp hc with rfl
      exact Or.inr rfl
  | succ n ih =>
    intro l h
    match l with
    | [] =>
      intro c hc
      cases hc
    | c0 :: cs =>
      simp only [digitsThenOptNL, Bool.and_eq_true] at h
      intro c hc
      rcases List.mem_cons.mp hc with rfl | hc
      · exact Or.inl h.1
      · exact ih cs h.2 c hc

theorem phoneChars_chars (l : List Char) (h : phoneChars l = true) :
    ∀ c ∈ l, isDigitChar c = true ∨ c = '+' ∨ c = '\n' := by
  match l with
  | [] =>
    intro c hc
    cases hc
  | c0 :: cs =>
    by_cases hc0 : c0 = '+'
    · subst hc0
      have hred : phoneChars ('+' :: cs) = digitsThenOptNL 10 cs := by
        simp [phoneChars]
      rw [hred] at h
      intro c hc
      rcases List.mem_cons.mp hc with rfl | hc
      · exact Or.inr (Or.inl rfl)
      · rcases digitsThenOptNL_chars 10 cs h c hc with hd | hn
        · exact Or.inl hd
        · exact Or.inr (Or.inr hn)
    · have hred : phoneChars (c0 :: cs) = digitsThenOptNL 10 (c0 :: cs) := by
        simp [phoneChars, hc0]
      rw [hred] at h
      intro c hc
      rcases digitsThenOptNL_chars 10 _ h c hc with hd | hn
      · exact Or.inl hd
      · exact Or.inr (Or.inr hn)

/-- Over a validated phone string (digits, optional `+`, optional trailing
newline — all fixed points of lower-casing), lowering the query first does
not change the substring test. -/
theorem containsSub_low_phone (q ph : List Char)
    (hph : ∀ c ∈ ph, isDigitChar c = true ∨ c = '+' ∨ c = '\n') :
    containsSub (lowList q) ph = containsSub q ph := by
  by_cases hq : lowList q = q
  · rw [hq]
  · have hex : ∃ c ∈ q, lowChar c ≠ c := by
      by_contra hall
      push_neg at hall
      exact hq ((List.map_congr_left hall).trans (List.map_id q))
    obtain ⟨c, hc, hne⟩ := hex
    rcases lowChar_eq_or c with heq | hfacts
    · exact absurd heq hne
    obtain ⟨hcd, hcp, hcn, hld, hlp, hln⟩ := hfacts
    have hrhs : containsSub q ph = false := by
      cases hcs : containsSub q ph
      · rfl
      · exfalso
        have hcph := containsSub_mem q ph hcs c hc
        rcases hph c hcph with hd | hp | hn
        · rw [hcd] at hd
          cases hd
        · exact hcp hp
        · exact hcn hn
    have hlhs : containsSub (lowList q) ph = false := by
      cases hcs : containsSub (lowList q) ph
      · rfl
      · exfalso
        have hmem : lowChar c ∈ lowList q := List.mem_map_of_mem lowChar hc
        have hcph := containsSub_mem (lowList q) ph hcs (lowChar c) hmem
        rcases hph (lowChar c) hcph with hd | hp | hn
        · rw [hld] at hd
          cases hd
        · exact hlp hp
        · exact hln hn
    rw [hlhs, hrhs]

/-- C7: for every store whose records carry validated phones (the `Record`
constructor guarantees this) and every query string, `search` returns
exactly the records matched by the claim's predicate — query a
case-insensitive substring of name or email, or a substring of the raw
phone string, OR across the three fields — in store insertion order;
an empty result is just an ordinary value of this equation. -/
theorem c7_search_spec (book : List Record) (q : String)
    (hv : ∀ r ∈ book, is_valid_phone r.phone = true) :
    search book q = book.filter (searchSpec q) := by
  unfold search
  apply List.filter_congr
  intro r hr
  have key := containsSub_low_phone q.toList r.phone.toList
    (phoneChars_chars r.phone.toList (hv r hr))
  rw [key]
  unfold searchSpec
  cases containsSub (lowList q.toList) (lowList r.name.toList) <;>
    cases containsSub (lowList q.toList) (lowList r.email.toList) <;>
    cases containsSub q.toList r.phone.toList <;> rfl

theorem c7_witness :
    search
        [⟨"Anna", "1234567890", "anna@x.com", none⟩,
         ⟨"Bob", "0987654321", "bob@x.com", none⟩] "ANNA" =
      List.filter
        (searchSpec "ANNA")
        [⟨"Anna", "1234567890", "anna@x.com", none⟩,
         ⟨"Bob", "0987654321", "bob@x.com", none⟩] := by
  refine c7_search_spec _ "ANNA" ?_
  intro r hr
  rcases List.mem_cons.mp hr with rfl | hr
  · decide
  rcases List.mem_singleton.mp hr with rfl
  decide

/-! ### Dates and `days_to_birthday` (C6) -/

/-- Gregorian leap-year rule (as used by Python `datetime`). -/
def isLeap (y : Nat) : Bool :=
  y % 4 == 0 && (y % 100 != 0 || y % 400 == 0)

def yearLength (y : Nat) : Nat := if isLeap y then 366 else 365

/-- Total days in years `1..y` of the proleptic Gregorian calendar. -/
def daysBY : Nat → Nat
  | 0 => 0
  | y + 1 => daysBY y + yearLength (y + 1)

/-- Cumulative days before month `m` in a non-leap year. -/
def monthsCum : Nat → Nat
  | 1 => 0
  | 2 => 31
  | 3 => 59
  | 4 => 90
  | 5 => 120
  | 6 => 151
  | 7 => 181
  | 8 => 212
  | 9 => 243
  | 10 => 273
  | 11 => 304
  | 12 => 334
  | _ => 0

def daysBeforeMonth (y m : Nat) : Nat :=
  monthsCum m + if 3 ≤ m ∧ isLeap y = true then 1 else 0

def daysInMonth (y m : Nat) : Nat :=
  match m with
  | 1 => 31
  | 2 => if isLeap y then 29 else 28
  | 3 => 31
  | 4 => 30
  | 5 => 31
  | 6 => 30
  | 7 => 31
  | 8 => 31
  | 9 => 30
  | 10 => 31
  | 11 => 30
  | 12 => 31
  | _ => 0

/-- Validity of `datetime(y, m, d)` (`MINYEAR = 1`). -/
def validYMDb (y m d : Nat) : Bool :=
  decide (1 ≤ y) && decide (1 ≤ m) && decide (m ≤ 12) && decide (1 ≤ d) &&
    decide (d ≤ daysInMonth y m)

/-- `date.toordinal`: day number of `(y, m, d)`, day 1 being 0001-01-01. -/
def toOrdinal (y m d : Nat) : Nat := daysBY (y - 1) + daysBeforeMonth y m + d

def digitVal (c : Char) : Nat := c.toNat - 48

/-- Read one or two leading digits (the `%d`/`%m` behaviour of `strptime`). -/
def read12 : List Char → Option (Nat × List Char)
  | c1 :: c2 :: rest =>
    if isDigitChar c1 then
      if isDigitChar c2 then some (10 * digitVal c1 + digitVal c2, rest)
      else some (digitVal c1, c2 :: rest)
    else none
  | [c1] => if isDigitChar c1 then some (digitVal c1, []) else none
  | [] => none

/-- `datetime.strptime(s, "%d.%m.%Y")`: day (1-2 digits), a dot, month
(1-2 digits), a dot, exactly four year digits, end of input; the parsed
triple must form a real calendar date with year at least 1, else
`strptime` raises `ValueError` (which `days_to_birthday` catches,
returning `None`). -/
def parseDMY (s : String) : Option (Nat × Nat × Nat) :=
  match read12 s.toList with
  | none => none
  | some (d, rest1) =>
    match rest1 with
    | '.' :: rest2 =>
      match read12 rest2 with
      | none => none
      | some (m, rest3) =>
        match rest3 with
        | '.' :: y1 :: y2 :: y3 :: y4 :: rest4 =>
          if isDigitChar y1 && isDigitChar y2 && isDigitChar y3 && isDigitChar y4 &&
              rest4 == ([] : List Char) then
            let y := 1000 * digitVal y1 + 100 * digitVal y2 + 10 * digitVal y3 + digitVal y4
            if validYMDb y m d then some (d, m, y) else none
          else none
        | _ => none
    | _ => none

/-- A moment in time: a calendar date plus seconds since midnight
(`datetime.now()` at second resolution). -/
structure PDateTime where
  year : Nat
  month : Nat
  day : Nat
  sec : Nat
  deriving DecidableEq

/-- Seconds from the epoch to the moment `t`. -/
def nowEpochSec (t : PDateTime) : Int :=
  (toOrdinal t.year t.month t.day : Int) * 86400 + (t.sec : Int)

/-- `Record.days_to_birthday`, parameterized by the current moment (the
source reads `datetime.now()`): `None` when no birthday is stored or the
stored string fails to parse as `%d.%m.%Y`; otherwise builds
`datetime(now.year, month, day)` — raising `ValueError` outside any
try/except for an impossible combination such as Feb 29 in a non-leap
year — advances it one year when strictly earlier than now (a comparison
that includes the time of day), and returns `(next_birthday - now).days`,
the floor of the signed difference in days. -/
def days_to_birthday (r : Record) (now : PDateTime) : Except PyErr (Option Int) :=
  match r.birthday with
  | none => .ok none
  | some s =>
    match parseDMY s with
    | none => .ok none
    | some (d, m, _) =>
      if validYMDb now.year m d then
        if (toOrdinal now.year m d : Int) * 86400 < nowEpochSec now then
          if validYMDb (now.year + 1) m d then
            .ok (some (Int.fdiv ((toOrdinal (now.year + 1) m d : Int) * 86400 -
              nowEpochSec now) 86400))
          else .error (.valueError "day is out of range for month")
        else
          .ok (some (Int.fdiv ((toOrdinal now.year m d : Int) * 86400 -
            nowEpochSec now) 86400))
      else .error (.valueError "day is out of range for month")

/-! ### Calendar bounds used by C6 -/

theorem daysBY_succ (y : Nat) : daysBY (y + 1) = daysBY y + yearLength (y + 1) := rfl

theorem yearLength_ge (y : Nat) : 365 ≤ yearLength y := by
  unfold yearLength
  split <;> omega

theorem yearLength_le (y : Nat) : yearLength y ≤ 366 := by
  unfold yearLength
  split <;> omega

theorem daysBY_pred (y : Nat) (hy : 1 ≤ y) :
    daysBY y = daysBY (y - 1) + yearLength y := by
  cases y with
  | zero => exact absurd hy (by omega)
  | succ n => simpa using daysBY_succ n

theorem daysBeforeMonth_add_le (y m d : Nat) (hm1 : 1 ≤ m) (hm2 : m ≤ 12)
    (hd : d ≤ daysInMonth y m) : daysBeforeMonth y m + d ≤ yearLength y := by
  interval_cases m <;> cases hL : isLeap y <;>
    simp [daysBeforeMonth, daysInMonth, monthsCum, yearLength, hL] at hd ⊢ <;> omega

theorem validYMDb_facts (y m d : Nat) (h : validYMDb y m d = true) :
    1 ≤ y ∧ 1 ≤ m ∧ m ≤ 12 ∧ 1 ≤ d ∧ d ≤ daysInMonth y m := by
  simp only [validYMDb, Bool.and_eq_true, decide_eq_true_eq] at h
  exact ⟨h.1.1.1.1, h.1.1.1.2, h.1.1.2, h.1.2, h.2⟩

theorem ord_lower (y m d : Nat) (hd : 1 ≤ d) :
    daysBY (y - 1) + 1 ≤ toOrdinal y m d := by
  unfold toOrdinal
  omega

theorem ord_upper (y m d : Nat) (hy : 1 ≤ y) (hm1 : 1 ≤ m) (hm2 : m ≤ 12)
    (hd : d ≤ daysInMonth y m) : toOrdinal y m d ≤ daysBY y := by
  have h1 := daysBeforeMonth_add_le y m d hm1 hm2 hd
  have h2 := daysBY_pred y hy
  unfold toOrdinal
  omega

theorem ord_next_year (y m d : Nat) (hy : 1 ≤ y) :
    toOrdinal y m d + 365 ≤ toOrdinal (y + 1) m d ∧
      toOrdinal (y + 1) m d ≤ toOrdinal y m d + 366 := by
  have h2 := daysBY_pred y hy
  unfold toOrdinal daysBeforeMonth yearLength at *
  rw [Nat.add_sub_cancel]
  by_cases h3 : 3 ≤ m <;> cases hLy : isLeap y <;> cases hLy1 : isLeap (y + 1) <;>
    simp [h3, hLy, hLy1] at h2 ⊢ <;> omega

theorem fdiv_bounds (a : Int) (h0 : 0 ≤ a) (h1 : a < 366 * 86400) :
    0 ≤ Int.fdiv a 86400 ∧ Int.fdiv a 86400 < 366 := by
  rw [Int.fdiv_eq_ediv a (by omega)]
  refine ⟨Int.ediv_nonneg h0 (by omega), ?_⟩
  rw [Int.ediv_lt_iff_lt_mul (by omega)]
  omega

/-- C6 (amended): `days_to_birthday` returns `none` when no birthday is on
file, and also when the stored string fails to parse as `DD.MM.YYYY`
(notably every canonical `YYYY-MM-DD` birthday).  When the string parses,
the candidate `datetime(now.year, month, day)` is built — raising
`ValueError` (uncaught) when that combination is invalid in the current
year, or, after advancing past birthdays by one year, invalid in the next
year (the Feb-29 cases).  Otherwise the result is the floor of
`(candidate - now)` in days, which always lies in `[0, 366)`; it equals 0
when now is exactly midnight of the candidate (see the final conjunct),
but not on the rest of the birthday itself — see the counterexample. -/
theorem c6_days_to_birthday (r : Record) (now : PDateTime)
    (hnow : validYMDb now.year now.month now.day = true)
    (hsec : now.sec < 86400) :
    (r.birthday = none → days_to_birthday r now = .ok none) ∧
      (∀ s, r.birthday = some s → parseDMY s = none →
        days_to_birthday r now = .ok none) ∧
      (∀ s d m y, r.birthday = some s → parseDMY s = some (d, m, y) →
        (validYMDb now.year m d = false →
          days_to_birthday r now = .error (.valueError "day is out of range for month")) ∧
        (validYMDb now.year m d = true →
          (toOrdinal now.year m d : Int) * 86400 < nowEpochSec now →
          validYMDb (now.year + 1) m d = false →
          days_to_birthday r now = .error (.valueError "day is out of range for month")) ∧
        (validYMDb now.year m d = true →
          ((toOrdinal now.year m d : Int) * 86400 < nowEpochSec now →
            validYMDb (now.year + 1) m d = true) →
          ∃ v, days_to_birthday r now = .ok (some v) ∧ 0 ≤ v ∧ v < 366)) ∧
      (∀ s d m y, r.birthday = some s → parseDMY s = some (d, m, y) →
        now.month = m → now.day = d → now.sec = 0 →
        days_to_birthday r now = .ok (some 0)) := by
  obtain ⟨hny1, hnm1, hnm2, hnd1, hnd2⟩ := validYMDb_facts _ _ _ hnow
  have hNge : daysBY (now.year - 1) + 1 ≤ toOrdinal now.year now.month now.day :=
    ord_lower _ _ _ hnd1
  have hNle : toOrdinal now.year now.month now.day ≤ daysBY now.year :=
    ord_upper _ _ _ hny1 hnm1 hnm2 hnd2
  have hpred : daysBY now.year = daysBY (now.year - 1) + yearLength now.year :=
    daysBY_pred _ hny1
  have hyl1 : 365 ≤ yearLength now.year := yearLength_ge _
  have hyl2 : yearLength now.year ≤ 366 := yearLength_le _
  refine ⟨?_, ?_, ?_, ?_⟩
  · intro hb
    simp only [days_to_birthday, hb]
  · intro s hb hp
    simp only [days_to_birthday, hb, hp]
  · intro s d m y hb hp
    refine ⟨?_, ?_, ?_⟩
    · intro hv
      simp only [days_to_birthday, hb, hp, hv]
      simp
    · intro hv hadv hnxt
      simp only [days_to_birthday, hb, hp, hv, hnxt]
      simp only [if_true]
      rw [if_pos hadv]
      simp
    · intro hv hnxt
      obtain ⟨hy1, hm1, hm2, hd1, hd2⟩ := validYMDb_facts _ _ _ hv
      have hCge : daysBY (now.year - 1) + 1 ≤ toOrdinal now.year m d :=
        ord_lower _ _ _ hd1
      have hCle : toOrdinal now.year m d ≤ daysBY now.year :=
        ord_upper _ _ _ hy1 hm1 hm2 hd2
      by_cases hadv : (toOrdinal now.year m d : Int) * 86400 < nowEpochSec now
      · -- past this year's candidate: advance one year
        have hnext := hnxt hadv
        obtain ⟨-, -, -, hd1n, hd2n⟩ := validYMDb_facts _ _ _ hnext
        have hCn_ge : daysBY (now.year + 1 - 1) + 1 ≤ toOrdinal (now.year + 1) m d :=
          ord_lower _ _ _ hd1n
        rw [Nat.add_sub_cancel] at hCn_ge
        have hbounds := ord_next_year now.year m d hy1
        refine ⟨Int.fdiv ((toOrdinal (now.year + 1) m d : Int) * 86400 -
          nowEpochSec now) 86400, ?_, ?_⟩
        · simp only [days_to_birthday, hb, hp, hv, hnext]
          simp only [if_true]
          rw [if_pos hadv]
        · unfold nowEpochSec at hadv ⊢
          refine fdiv_bounds _ ?_ ?_ <;> omega
      · refine ⟨Int.fdiv ((toOrdinal now.year m d : Int) * 86400 -
          nowEpochSec now) 86400, ?_, ?_⟩
        · simp only [days_to_birthday, hb, hp, hv]
          simp only [if_true]
          rw [if_neg hadv]
        · unfold nowEpochSec at hadv ⊢
          refine fdiv_bounds _ ?_ ?_ <;> omega
  · intro s d m y hb hp hmm hdd hss
    have hv : validYMDb now.year m d = true := by
      rw [← hmm, ← hdd]
      exact hnow
    have hns : nowEpochSec now = (toOrdinal now.year m d : Int) * 86400 := by
      unfold nowEpochSec
      rw [hmm, hdd, hss]
      simp
    simp only [days_to_birthday, hb, hp, hv]
    simp only [if_true]
    rw [if_neg (by rw [hns]; omega), hns]
    simp

theorem c6_witness :
    days_to_birthday ⟨"Anna", "1234567890", "anna@x.com", some "15.06.2000"⟩
        ⟨2023, 6, 15, 0⟩ = .ok (some 0) :=
  (c6_days_to_birthday ⟨"Anna", "1234567890", "anna@x.com", some "15.06.2000"⟩
      ⟨2023, 6, 15, 0⟩ (by decide) (by decide)).2.2.2 "15.06.2000" 15 6 2000
    rfl (by decide) rfl rfl rfl

/-- C6 counterexample: the claim says the result is 0 when the stored
birthday's month/day equals today's.  But `datetime.now()` carries the
time of day while the candidate birthday is at midnight, so at noon
(43200 s) of the birthday itself the candidate is "strictly before
today", the code advances it one year and returns the floored day
difference — here 364, not 0. -/
theorem c6_cex :
    days_to_birthday ⟨"Anna", "1234567890", "anna@x.com", some "15.06.0001"⟩
        ⟨1, 6, 15, 43200⟩ = .ok (some 364) ∧ (364 : Int) ≠ 0 := by
  constructor
  · rfl
  · decide
